import Mathlib

/-!
Shallow embedding of the Mandelbrot renderer: the escape-time evaluator
(the two GPU fragment-shader variants and the CPU pixel loop), the
screen/complex coordinate transforms, the interaction handlers (wheel zoom,
selection zoom, pan) and the dynamic-resolution policy.  Pixel and
complex-plane arithmetic is modelled over the rationals; the smooth-coloring
value, which uses the real logarithm, is modelled over the reals.
-/

namespace Mandel

/-- One step of the Mandelbrot recurrence z <- z*z + c on pairs (re, im),
as computed by both shaders (zSquared + c) and the CPU loop (xTemp, y). -/
def step (c z : ℚ × ℚ) : ℚ × ℚ :=
  (z.1 * z.1 - z.2 * z.2 + c.1, 2 * z.1 * z.2 + c.2)

/-- Squared magnitude of z, written dot(z, z) in the shaders and
x*x + y*y in the CPU loop. -/
def normSq (z : ℚ × ℚ) : ℚ := z.1 * z.1 + z.2 * z.2

/-- The orbit of 0 under the recurrence: orbit c n is the n-th iterate z_n. -/
def orbit (c : ℚ × ℚ) : ℕ → ℚ × ℚ
  | 0 => (0, 0)
  | n + 1 => step c (orbit c n)

/-- escAt c n means the update performed at 0-based loop index n escapes,
that is, the squared magnitude of z_(n+1) exceeds 4. -/
def escAt (c : ℚ × ℚ) (n : ℕ) : Prop := 4 < normSq (orbit c (n + 1))

instance (c : ℚ × ℚ) : DecidablePred (escAt c) := fun n =>
  inferInstanceAs (Decidable (4 < normSq (orbit c (n + 1))))

/-- Loop of the standalone fragment shader (the .glsl source file):
for (i = 0.0; i < float(maxIter); i++) { z = z*z + c; if (dot(z,z) > 4.0) break; }.
The fuel argument bounds the remaining passes; run003 supplies enough fuel
for the for-loop to exit through its own i < maxIter test. -/
def go003 (c : ℚ × ℚ) (m : ℕ) : ℕ → ℕ → ℚ × ℚ → ℕ × (ℚ × ℚ)
  | 0, i, z => (i, z)
  | fuel + 1, i, z =>
    if m ≤ i then (i, z)
    else
      let w := step c z
      if 4 < normSq w then (i, w) else go003 c m fuel (i + 1) w

/-- State of the standalone shader after its loop: the float variable i and z. -/
def run003 (c : ℚ × ℚ) (m : ℕ) : ℕ × (ℚ × ℚ) := go003 c m (m + 1) 0 (0, 0)

/-- The smoothing adjustment of the shaders, applied to the squared magnitude s
of z at loop exit: log_zn = log(s) / 2, nu = log(log_zn / log 2) / log 2. -/
noncomputable def nu (s : ℚ) : ℝ :=
  Real.log (Real.log (s : ℝ) / 2 / Real.log 2) / Real.log 2

/-- Value fed to getColor by the standalone shader: the loop result i, smoothed
by i + 1 - nu when i < maxIterations. -/
noncomputable def result003 (c : ℚ × ℚ) (m : ℕ) : ℝ :=
  let r := run003 c m
  if r.1 < m then (r.1 : ℝ) + 1 - nu (normSq r.2) else (r.1 : ℝ)

/-- Loop of the two inline fragment shaders in the WebGL renderer:
for (int iter = 0; iter < 1000; iter++) { if (iter >= maxIter) break;
z = z*z + c; if (dot(z,z) > 4.0) { i = iter; break; } i = iter; }.
Returns the float variable i, the final z, and the number of updates of z
performed (for the iteration-budget claims). -/
def go004 (c : ℚ × ℚ) (m : ℕ) : ℕ → ℕ → ℕ → ℚ × ℚ → ℕ × (ℚ × ℚ) × ℕ
  | 0, _, i, z => (i, z, 0)
  | fuel + 1, iter, i, z =>
    if m ≤ iter then (i, z, 0)
    else
      let w := step c z
      if 4 < normSq w then (iter, w, 1)
      else
        let r := go004 c m fuel (iter + 1) iter w
        (r.1, r.2.1, r.2.2 + 1)

/-- State of the inline shaders after their loop, with the hard bound 1000
of the for statement as the fuel. -/
def run004 (c : ℚ × ℚ) (m : ℕ) : ℕ × (ℚ × ℚ) × ℕ := go004 c m 1000 0 0 (0, 0)

/-- Number of z updates the inline shader loop performs. -/
def updates004 (c : ℚ × ℚ) (m : ℕ) : ℕ := (run004 c m).2.2

/-- Value fed to getColor by the inline shaders: the loop variable i, smoothed
by i + 1 - nu when i < maxIterations. -/
noncomputable def result004 (c : ℚ × ℚ) (m : ℕ) : ℝ :=
  let r := run004 c m
  if r.1 < m then (r.1 : ℝ) + 1 - nu (normSq r.2.1) else (r.1 : ℝ)

/-- Loop of the CPU renderer calculateMandelbrot:
while (x*x + y*y <= 4 && iteration < maxIter) { update; iteration++ }. -/
def cpuGo (c : ℚ × ℚ) (m : ℕ) : ℕ → ℕ → ℚ × ℚ → ℕ × (ℚ × ℚ)
  | 0, iter, z => (iter, z)
  | fuel + 1, iter, z =>
    if 4 < normSq z then (iter, z)
    else if m ≤ iter then (iter, z)
    else cpuGo c m fuel (iter + 1) (step c z)

/-- The CPU pixel-loop evaluator: returns the integer iteration count,
with no smoothing. -/
def calculateMandelbrot (c : ℚ × ℚ) (m : ℕ) : ℕ :=
  (cpuGo c m (m + 1) 0 (0, 0)).1

/-- The standalone shader loop ended by detecting escape. -/
def escaped003 (c : ℚ × ℚ) (m : ℕ) : Prop := 4 < normSq (run003 c m).2

instance (c : ℚ × ℚ) (m : ℕ) : Decidable (escaped003 c m) :=
  inferInstanceAs (Decidable (4 < normSq (run003 c m).2))

/-- The CPU loop ended by detecting escape. -/
def escapedCpu (c : ℚ × ℚ) (m : ℕ) : Prop :=
  4 < normSq (cpuGo c m (m + 1) 0 (0, 0)).2

instance (c : ℚ × ℚ) (m : ℕ) : Decidable (escapedCpu c m) :=
  inferInstanceAs (Decidable (4 < normSq (cpuGo c m (m + 1) 0 (0, 0)).2))

section LoopLemmas

variable (c : ℚ × ℚ) (m : ℕ)

/-- If no loop index below m escapes, the standalone shader loop runs to
completion and leaves i = m, z = z_m. -/
lemma go003_noEsc (hm : ∀ j < m, ¬ escAt c j) :
    ∀ fuel i, i ≤ m → m + 1 ≤ fuel + i →
      go003 c m fuel i (orbit c i) = (m, orbit c m) := by
  intro fuel
  induction fuel with
  | zero => intro i him hf; omega
  | succ fuel ih =>
    intro i him hf
    rcases eq_or_lt_of_le him with h | h
    · subst h
      simp [go003]
    · have hne : ¬ m ≤ i := by omega
      have hstep : step c (orbit c i) = orbit c (i + 1) := rfl
      have hesc : ¬ 4 < normSq (orbit c (i + 1)) := hm i h
      simp only [go003, if_neg hne, hstep, if_neg hesc]
      exact ih (i + 1) (by omega) (by omega)

/-- If n is the first escaping loop index and n < m, the standalone shader
loop stops there with i = n and z = z_(n+1). -/
lemma go003_esc {n : ℕ} (hn : escAt c n) (hnm : n < m) :
    ∀ fuel i, i ≤ n → (∀ j, i ≤ j → j < n → ¬ escAt c j) → m + 1 ≤ fuel + i →
      go003 c m fuel i (orbit c i) = (n, orbit c (n + 1)) := by
  intro fuel
  induction fuel with
  | zero => intro i hin _ hf; omega
  | succ fuel ih =>
    intro i hin hfirst hf
    have hne : ¬ m ≤ i := by omega
    have hstep : step c (orbit c i) = orbit c (i + 1) := rfl
    rcases eq_or_lt_of_le hin with h | h
    · subst h
      simp only [go003, if_neg hne, hstep]
      exact if_pos hn
    · have hesc : ¬ 4 < normSq (orbit c (i + 1)) := hfirst i le_rfl h
      simp only [go003, if_neg hne, hstep, if_neg hesc]
      exact ih (i + 1) (by omega) (fun j hj hjn => hfirst j (by omega) hjn) (by omega)

/-- Characterization of run003 when no index below m escapes. -/
lemma run003_noEsc (hm : ∀ j < m, ¬ escAt c j) : run003 c m = (m, orbit c m) :=
  go003_noEsc c m hm (m + 1) 0 (Nat.zero_le m) (by omega)

/-- Characterization of run003 at the first escaping index. -/
lemma run003_esc {n : ℕ} (hn : escAt c n) (hfirst : ∀ j < n, ¬ escAt c j)
    (hnm : n < m) : run003 c m = (n, orbit c (n + 1)) :=
  go003_esc c m hn hnm (m + 1) 0 (Nat.zero_le n)
    (fun j _ hjn => hfirst j hjn) (by omega)

/-- With no escape below m, the standalone shader returns exactly m. -/
lemma result003_noEsc (hm : ∀ j < m, ¬ escAt c j) : result003 c m = (m : ℝ) := by
  simp [result003, run003_noEsc c m hm]

/-- At the first escaping index n < m, the standalone shader returns the
smoothed value n + 1 - nu. -/
lemma result003_esc {n : ℕ} (hn : escAt c n) (hfirst : ∀ j < n, ¬ escAt c j)
    (hnm : n < m) :
    result003 c m = (n : ℝ) + 1 - nu (normSq (orbit c (n + 1))) := by
  simp [result003, run003_esc c m hn hfirst hnm, hnm]

end LoopLemmas

section Loop004

variable (c : ℚ × ℚ) (m : ℕ)

/-- Once the iteration cap gate fires, the inline shader loop changes nothing. -/
lemma go004_capStop : ∀ fuel iter i z, m ≤ iter →
    go004 c m fuel iter i z = (i, z, 0) := by
  intro fuel iter i z hit
  cases fuel with
  | zero => rfl
  | succ fuel => simp [go004, hit]

/-- If no loop index below m escapes and 1 ≤ m ≤ fuel + iter, the inline
shader loop exits with i = m - 1, z = z_m, having performed m - iter updates. -/
lemma go004_noEsc (hm : ∀ j < m, ¬ escAt c j) :
    ∀ fuel iter i, iter < m → m ≤ fuel + iter →
      go004 c m fuel iter i (orbit c iter) = (m - 1, orbit c m, m - iter) := by
  intro fuel
  induction fuel with
  | zero => intro iter i him hf; omega
  | succ fuel ih =>
    intro iter i him hf
    have hne : ¬ m ≤ iter := by omega
    have hstep : step c (orbit c iter) = orbit c (iter + 1) := rfl
    have hesc : ¬ 4 < normSq (orbit c (iter + 1)) := hm iter him
    simp only [go004, if_neg hne, hstep, if_neg hesc]
    rcases eq_or_lt_of_le (Nat.succ_le_of_lt him) with h | h
    · have h3 : orbit c m = orbit c (iter + 1) := by rw [← h]
      have h1 : m - 1 = iter := by omega
      have h2 : m - iter = 1 := by omega
      rw [go004_capStop c m fuel (iter + 1) iter _ (le_of_eq h.symm), h1, h2, h3]
    · rw [ih (iter + 1) iter h (by omega)]
      have h2 : m - iter = (m - (iter + 1)) + 1 := by omega
      rw [h2]

/-- If n is the first escaping loop index, n < m and n < fuel + iter, the
inline shader loop stops there with i = n, z = z_(n+1), after n + 1 - iter
updates. -/
lemma go004_esc {n : ℕ} (hn : escAt c n) (hnm : n < m) :
    ∀ fuel iter i, iter ≤ n → (∀ j, iter ≤ j → j < n → ¬ escAt c j) →
      n < fuel + iter →
      go004 c m fuel iter i (orbit c iter) = (n, orbit c (n + 1), n + 1 - iter) := by
  intro fuel
  induction fuel with
  | zero => intro iter i hin _ hf; omega
  | succ fuel ih =>
    intro iter i hin hfirst hf
    have hne : ¬ m ≤ iter := by omega
    have hstep : step c (orbit c iter) = orbit c (iter + 1) := rfl
    rcases eq_or_lt_of_le hin with h | h
    · subst h
      simp only [go004, if_neg hne, hstep]
      have h2 : iter + 1 - iter = 1 := by omega
      rw [h2]
      exact if_pos hn
    · have hesc : ¬ 4 < normSq (orbit c (iter + 1)) := hfirst iter le_rfl h
      simp only [go004, if_neg hne, hstep, if_neg hesc]
      rw [ih (iter + 1) iter (by omega) (fun j hj hjn => hfirst j (by omega) hjn)
        (by omega)]
      have h2 : n + 1 - iter = (n + 1 - (iter + 1)) + 1 := by omega
      rw [h2]

/-- Characterization of run004 when no index below m escapes (m within the
hard loop bound 1000). -/
lemma run004_noEsc (hm : ∀ j < m, ¬ escAt c j) (h1 : 1 ≤ m) (h2 : m ≤ 1000) :
    run004 c m = (m - 1, orbit c m, m) :=
  go004_noEsc c m hm 1000 0 0 (by omega) (by omega)

/-- Characterization of run004 at the first escaping index n < m ≤ 1000. -/
lemma run004_esc {n : ℕ} (hn : escAt c n) (hfirst : ∀ j < n, ¬ escAt c j)
    (hnm : n < m) (h2 : m ≤ 1000) : run004 c m = (n, orbit c (n + 1), n + 1) :=
  go004_esc c m hn hnm 1000 0 0 (Nat.zero_le n)
    (fun j _ hjn => hfirst j hjn) (by omega)

/-- The defect of the inline shaders: with no escape below m, the loop leaves
i = m - 1 < m, so the smoothing branch is taken for a point that never
escaped, and the shader returns (m - 1) + 1 - nu instead of m. -/
lemma result004_noEsc (hm : ∀ j < m, ¬ escAt c j) (h1 : 1 ≤ m) (h2 : m ≤ 1000) :
    result004 c m = ((m : ℝ) - 1) + 1 - nu (normSq (orbit c m)) := by
  have hlt : m - 1 < m := by omega
  have hcast : ((m - 1 : ℕ) : ℝ) = (m : ℝ) - 1 := by
    have : (1 : ℕ) ≤ m := h1
    push_cast [this]
    ring
  simp only [result004, run004_noEsc c m hm h1 h2]
  simp [hlt, hcast]

/-- At the first escaping index n < m ≤ 1000, the inline shaders return the
smoothed value n + 1 - nu. -/
lemma result004_esc {n : ℕ} (hn : escAt c n) (hfirst : ∀ j < n, ¬ escAt c j)
    (hnm : n < m) (h2 : m ≤ 1000) :
    result004 c m = (n : ℝ) + 1 - nu (normSq (orbit c (n + 1))) := by
  simp [result004, run004_esc c m hn hfirst hnm h2, hnm]

end Loop004

section LoopCpu

variable (c : ℚ × ℚ) (m : ℕ)

/-- If no orbit point z_j with j < m has escaped, the CPU while loop runs
until its iteration bound and returns (m, z_m). -/
lemma cpuGo_noEsc (hm : ∀ j < m, ¬ 4 < normSq (orbit c j)) :
    ∀ fuel iter, iter ≤ m → m + 1 ≤ fuel + iter →
      cpuGo c m fuel iter (orbit c iter) = (m, orbit c m) := by
  intro fuel
  induction fuel with
  | zero => intro iter him hf; omega
  | succ fuel ih =>
    intro iter him hf
    rcases eq_or_lt_of_le him with h | h
    · subst h
      by_cases hz : 4 < normSq (orbit c iter)
      · simp [cpuGo, hz]
      · simp [cpuGo, hz]
    · have hz : ¬ 4 < normSq (orbit c iter) := hm iter h
      have hne : ¬ m ≤ iter := by omega
      have hstep : step c (orbit c iter) = orbit c (iter + 1) := rfl
      simp only [cpuGo, if_neg hz, if_neg hne, hstep]
      exact ih (iter + 1) (by omega) (by omega)

/-- If k ≤ m is the first orbit index whose point has escaped, the CPU while
loop stops there and returns (k, z_k). -/
lemma cpuGo_esc {k : ℕ} (hk : 4 < normSq (orbit c k))
    (hkm : k ≤ m) :
    ∀ fuel iter, iter ≤ k → (∀ j, iter ≤ j → j < k → ¬ 4 < normSq (orbit c j)) →
      m + 1 ≤ fuel + iter →
      cpuGo c m fuel iter (orbit c iter) = (k, orbit c k) := by
  intro fuel
  induction fuel with
  | zero => intro iter hik _ hf; omega
  | succ fuel ih =>
    intro iter hik hfirst hf
    rcases eq_or_lt_of_le hik with h | h
    · subst h
      simp [cpuGo, hk]
    · have hz : ¬ 4 < normSq (orbit c iter) := hfirst iter le_rfl h
      have hne : ¬ m ≤ iter := by omega
      have hstep : step c (orbit c iter) = orbit c (iter + 1) := rfl
      simp only [cpuGo, if_neg hz, if_neg hne, hstep]
      exact ih (iter + 1) (by omega) (fun j hj hjn => hfirst j (by omega) hjn)
        (by omega)

/-- With no escape among z_0 .. z_(m-1), calculateMandelbrot returns m. -/
lemma calc_noEsc (hm : ∀ j < m, ¬ 4 < normSq (orbit c j)) :
    calculateMandelbrot c m = m := by
  unfold calculateMandelbrot
  rw [show ((0 : ℚ), (0 : ℚ)) = orbit c 0 from rfl,
    cpuGo_noEsc c m hm (m + 1) 0 (Nat.zero_le m) (by omega)]

/-- With first escaped orbit index k ≤ m, calculateMandelbrot returns k. -/
lemma calc_esc {k : ℕ} (hk : 4 < normSq (orbit c k))
    (hfirst : ∀ j < k, ¬ 4 < normSq (orbit c j)) (hkm : k ≤ m) :
    calculateMandelbrot c m = k := by
  unfold calculateMandelbrot
  rw [show ((0 : ℚ), (0 : ℚ)) = orbit c 0 from rfl,
    cpuGo_esc c m hk hkm (m + 1) 0 (Nat.zero_le k)
      (fun j _ hjk => hfirst j hjk) (by omega)]

end LoopCpu

section NuLemmas

lemma log_two_pos : (0 : ℝ) < Real.log 2 := Real.log_pos (by norm_num)

lemma log_four : Real.log 4 = 2 * Real.log 2 := by
  rw [show (4 : ℝ) = 2 ^ 2 by norm_num, Real.log_pow]
  push_cast
  ring

/-- The smoothing term is nonzero whenever the squared magnitude at loop exit
lies strictly between 1 and 4 (the non-escaped case with a nontrivial z). -/
lemma nu_ne_zero_of_lt (s : ℚ) (h1 : 1 < (s : ℝ)) (h4 : (s : ℝ) < 4) :
    nu s ≠ 0 := by
  have hLpos : 0 < Real.log (s : ℝ) := Real.log_pos h1
  have hLlt : Real.log (s : ℝ) < 2 * Real.log 2 := by
    have := Real.log_lt_log (by linarith : (0 : ℝ) < (s : ℝ)) h4
    rwa [log_four] at this
  have harg_pos : 0 < Real.log (s : ℝ) / 2 / Real.log 2 :=
    div_pos (by linarith) log_two_pos
  have harg_lt : Real.log (s : ℝ) / 2 / Real.log 2 < 1 := by
    rw [div_lt_one log_two_pos]
    linarith
  have hnum : Real.log (Real.log (s : ℝ) / 2 / Real.log 2) ≠ 0 := by
    intro hz
    rcases Real.log_eq_zero.mp hz with h | h | h
    · rw [h] at harg_pos
      linarith
    · rw [h] at harg_lt
      linarith
    · rw [h] at harg_pos
      linarith
  exact div_ne_zero hnum (ne_of_gt log_two_pos)

/-- The smoothing term is nonzero whenever the squared magnitude at loop exit
exceeds 4 (every escaped case). -/
lemma nu_ne_zero_of_gt (s : ℚ) (h4 : 4 < (s : ℝ)) : nu s ≠ 0 := by
  have hLgt : 2 * Real.log 2 < Real.log (s : ℝ) := by
    have := Real.log_lt_log (by norm_num : (0 : ℝ) < 4) h4
    rwa [log_four] at this
  have harg_gt : 1 < Real.log (s : ℝ) / 2 / Real.log 2 := by
    rw [lt_div_iff₀ log_two_pos]
    linarith
  have hnum : Real.log (Real.log (s : ℝ) / 2 / Real.log 2) ≠ 0 :=
    ne_of_gt (Real.log_pos harg_gt)
  exact div_ne_zero hnum (ne_of_gt log_two_pos)

end NuLemmas

section FirstEscape

/-- If the standalone shader loop detected escape under cap m, there is a
first escaping loop index, and it is below m. -/
lemma escaped003_first {c : ℚ × ℚ} {m : ℕ} (h : escaped003 c m) :
    ∃ n, escAt c n ∧ (∀ j < n, ¬ escAt c j) ∧ n < m := by
  by_cases hall : ∀ j < m, ¬ escAt c j
  · exfalso
    have hrun : run003 c m = (m, orbit c m) := run003_noEsc c m hall
    unfold escaped003 at h
    rw [hrun] at h
    rcases Nat.eq_zero_or_pos m with h0 | h0
    · subst h0
      norm_num [orbit, normSq] at h
    · exact hall (m - 1) (by omega) (by
        unfold escAt
        have : m - 1 + 1 = m := by omega
        rw [this]
        exact h)
  · push_neg at hall
    obtain ⟨j, hjm, hj⟩ := hall
    have hex : ∃ n, escAt c n := ⟨j, hj⟩
    refine ⟨Nat.find hex, Nat.find_spec hex, fun i hi => Nat.find_min hex hi, ?_⟩
    exact lt_of_le_of_lt (Nat.find_min' hex hj) hjm

/-- If the CPU loop detected escape under cap m, there is a first escaped
orbit index, and it is at most m. -/
lemma escapedCpu_first {c : ℚ × ℚ} {m : ℕ} (h : escapedCpu c m) :
    ∃ k, 4 < normSq (orbit c k) ∧ (∀ j < k, ¬ 4 < normSq (orbit c j)) ∧ k ≤ m := by
  by_cases hall : ∀ j < m, ¬ 4 < normSq (orbit c j)
  · by_cases hm : 4 < normSq (orbit c m)
    · exact ⟨m, hm, hall, le_rfl⟩
    · exfalso
      have hrun := cpuGo_noEsc c m hall (m + 1) 0 (Nat.zero_le m) (by omega)
      unfold escapedCpu at h
      rw [show ((0 : ℚ), (0 : ℚ)) = orbit c 0 from rfl, hrun] at h
      exact hm h
  · push_neg at hall
    obtain ⟨j, hjm, hj⟩ := hall
    have hex : ∃ k, 4 < normSq (orbit c k) := ⟨j, hj⟩
    refine ⟨Nat.find hex, Nat.find_spec hex, fun i hi => Nat.find_min hex hi, ?_⟩
    exact le_of_lt (lt_of_le_of_lt (Nat.find_min' hex hj) hjm)

end FirstEscape

/-- Viewport state of the renderer: center (x, y) and zoom. -/
structure Viewport where
  x : ℚ
  y : ℚ
  zoom : ℚ
  deriving DecidableEq

/-- Modelled from the spec: the Coordinate Mapper screenToComplex of section
4.1, mapping a canvas pixel (px, py), with py measured downward from the top,
to real = centerX + (px/width - 0.5) * rangeX and
imag = centerY + (0.5 - py/height) * rangeY, where rangeY = 2/zoom and
rangeX = rangeY * (width/height).  This is the claim-side mapping the code
is compared against. -/
def screenToComplexSpec (vp : Viewport) (w h px py : ℚ) : ℚ × ℚ :=
  (vp.x + (px / w - 1 / 2) * (2 / vp.zoom * (w / h)),
   vp.y + (1 / 2 - py / h) * (2 / vp.zoom))

/-- Pixel-to-plane mapping of the fragment shaders, as a function of
gl_FragCoord: uv = fragCoord / resolution and
c = center + ((uv.x - 0.5) * rangeX, (uv.y - 0.5) * rangeY).
Note gl_FragCoord.y grows upward from the bottom of the canvas. -/
def shaderComplex (vp : Viewport) (w h gx gy : ℚ) : ℚ × ℚ :=
  (vp.x + (gx / w - 1 / 2) * (2 / vp.zoom * (w / h)),
   vp.y + (gy / h - 1 / 2) * (2 / vp.zoom))

/-- The tooltip helper screenToComplex of the observed variant: computes the
view bounds minReal..maxReal, minImag..maxImag and interpolates the
normalized pixel position, with no inversion of the y axis. -/
def screenToComplex (vp : Viewport) (w h px py : ℚ) : ℚ × ℚ :=
  let rY := 2 / vp.zoom
  let rX := rY * (w / h)
  let minReal := vp.x - rX / 2
  let maxReal := vp.x + rX / 2
  let minImag := vp.y - rY / 2
  let maxImag := vp.y + rY / 2
  (minReal + px / w * (maxReal - minReal),
   minImag + py / h * (maxImag - minImag))

/-- zoomToSelection of the interaction layer: midpoint of the drag rectangle
converted with the renderer-style bounds arithmetic (minX + center * stepX),
zoom multiplied by min(canvasW / selW, canvasH / selH). -/
def zoomToSelection (vp : Viewport) (w h sx sy ex ey : ℚ) : Viewport :=
  let cX := (sx + ex) / 2
  let cY := (sy + ey) / 2
  let rY := 2 / vp.zoom
  let rX := rY * (w / h)
  let minX := vp.x - rX / 2
  let minY := vp.y - rY / 2
  let stepX := rX / w
  let stepY := rY / h
  let fX := minX + cX * stepX
  let fY := minY + cY * stepY
  let zf := min (w / |ex - sx|) (h / |ey - sy|)
  ⟨fX, fY, vp.zoom * zf⟩

/-- The mouseup handler in Select mode: zoom to the selection only when both
rectangle sides exceed the 10 pixel dead zone, otherwise leave the viewport
unchanged. -/
def mouseUpSelect (vp : Viewport) (w h sx sy ex ey : ℚ) : Viewport :=
  if 10 < |ex - sx| ∧ 10 < |ey - sy| then zoomToSelection vp w h sx sy ex ey
  else vp

/-- The wheel handler of src/index.ts: normalized device coordinates,
fractal point fX = x + ndcX * (2 / zoom), new center keeping that fractal
point at the same ndc under the new zoom.  down is deltaY > 0. -/
def wheelNdc (vp : Viewport) (w h px py : ℚ) (down : Bool) : Viewport :=
  let ndcX := px / w * 2 - 1
  let ndcY := py / h * (-2) + 1
  let fX := vp.x + ndcX * (2 / vp.zoom)
  let fY := vp.y + ndcY * (2 / vp.zoom)
  let zf : ℚ := if down then 4 / 5 else 6 / 5
  let nz := vp.zoom * zf
  ⟨fX - ndcX * (2 / nz), fY - ndcY * (2 / nz), nz⟩

/-- The wheel handler of the relative-dimension variant: fractal point from
the relative pixel position via rangeX and rangeY, new center from the new
ranges under the new zoom. -/
def wheelRelative (vp : Viewport) (w h px py : ℚ) (down : Bool) : Viewport :=
  let relX := px / w
  let relY := py / h
  let rY := 2 / vp.zoom
  let rX := rY * (w / h)
  let fX := vp.x + (relX - 1 / 2) * rX
  let fY := vp.y + (1 / 2 - relY) * rY
  let zf : ℚ := if down then 4 / 5 else 6 / 5
  let nz := vp.zoom * zf
  let nrY := 2 / nz
  let nrX := nrY * (w / h)
  ⟨fX - (relX - 1 / 2) * nrX, fY - (1 / 2 - relY) * nrY, nz⟩

/-- pan of the WebGL renderer (both observed generations): fractalWidth =
3.0 / zoom * aspect, fractalHeight = 3.0 / zoom, center moved by
-deltaX * fractalWidth / width and +deltaY * fractalHeight / height. -/
def pan (vp : Viewport) (w h dx dy : ℚ) : Viewport :=
  let fw := 3 / vp.zoom * (w / h)
  let fh := 3 / vp.zoom
  ⟨vp.x - dx * fw / w, vp.y + dy * fh / h, vp.zoom⟩

/-- Renderer constant baseResolutionFactor. -/
def baseResolutionFactor : ℚ := 1

/-- Renderer constant maxResolutionFactor. -/
def maxResolutionFactor : ℚ := 2

/-- Renderer constant zoomThreshold. -/
def zoomThreshold : ℚ := 100

/-- calculateResolutionFactor of the renderer: 1 below the zoom threshold,
otherwise base * min(zoom / threshold, max) clamped at max. -/
def calculateResolutionFactor (zoom : ℚ) : ℚ :=
  if zoom ≤ zoomThreshold then baseResolutionFactor
  else
    let zr := min (zoom / zoomThreshold) maxResolutionFactor
    min (baseResolutionFactor * zr) maxResolutionFactor

/-- resizeCanvasToDisplaySize: the internal raster dimensions are
floor(display * factor) in each direction. -/
def resizeDims (dw dh zoom : ℚ) : ℤ × ℤ :=
  (⌊dw * calculateResolutionFactor zoom⌋, ⌊dh * calculateResolutionFactor zoom⌋)

section UpdateBounds

variable (c : ℚ × ℚ) (m : ℕ)

/-- The inline shader loop performs at most fuel updates of z. -/
lemma go004_updates_fuel : ∀ fuel iter i z,
    (go004 c m fuel iter i z).2.2 ≤ fuel := by
  intro fuel
  induction fuel with
  | zero => intro iter i z; simp [go004]
  | succ fuel ih =>
    intro iter i z
    by_cases hit : m ≤ iter
    · simp [go004, hit]
    · by_cases hesc : 4 < normSq (step c z)
      · simp [go004, hit, hesc]
      · simp only [go004, if_neg hit, if_neg hesc]
        exact Nat.succ_le_succ (ih (iter + 1) iter (step c z))

/-- The inline shader loop performs at most m - iter updates of z. -/
lemma go004_updates_cap : ∀ fuel iter i z,
    (go004 c m fuel iter i z).2.2 ≤ m - iter := by
  intro fuel
  induction fuel with
  | zero => intro iter i z; simp [go004]
  | succ fuel ih =>
    intro iter i z
    by_cases hit : m ≤ iter
    · simp [go004, hit]
    · by_cases hesc : 4 < normSq (step c z)
      · simp only [go004, if_neg hit, if_pos hesc]
        omega
      · simp only [go004, if_neg hit, if_neg hesc]
        have := ih (iter + 1) iter (step c z)
        omega

end UpdateBounds

/-- Claim C8: with maxIterations = 0 every evaluator path (CPU loop,
standalone shader, inline shaders) returns 0 immediately, and the inline
shader loop performs no update of the recurrence. -/
theorem C8_zero_cap (c : ℚ × ℚ) :
    calculateMandelbrot c 0 = 0 ∧ result003 c 0 = 0 ∧ result004 c 0 = 0 ∧
      updates004 c 0 = 0 := by
  have h003 : run003 c 0 = (0, orbit c 0) := run003_noEsc c 0 (by omega)
  have h004 : run004 c 0 = (0, (0, 0), 0) :=
    go004_capStop c 0 1000 0 0 (0, 0) le_rfl
  refine ⟨calc_noEsc c 0 (by omega), ?_, ?_, ?_⟩
  · simp [result003, h003]
  · simp [result004, h004]
  · simp [updates004, h004]

/-- Claim C10: the inline shader loop has the hard bound 1000: for every
point and every configured cap it performs at most 1000 updates of
z <- z*z + c, and never more than the cap itself. -/
theorem C10_loop_bound (c : ℚ × ℚ) (m : ℕ) :
    updates004 c m ≤ 1000 ∧ updates004 c m ≤ m := by
  constructor
  · exact go004_updates_fuel c m 1000 0 0 (0, 0)
  · have := go004_updates_cap c m 1000 0 0 (0, 0)
    simpa using this

/-- Claim C9: the dynamic resolution factor is 1 for zoom at most 100, and
min(zoom/100, 2) above the threshold; the internal raster dimensions are the
floors of display size times the factor. -/
theorem C9_resolution (zoom dw dh : ℚ) :
    (zoom ≤ 100 → calculateResolutionFactor zoom = 1) ∧
    (100 < zoom → calculateResolutionFactor zoom = min (zoom / 100) 2) ∧
    resizeDims dw dh zoom =
      (⌊dw * calculateResolutionFactor zoom⌋, ⌊dh * calculateResolutionFactor zoom⌋) := by
  refine ⟨fun h => ?_, fun h => ?_, rfl⟩
  · simp [calculateResolutionFactor, zoomThreshold, baseResolutionFactor, h]
  · rw [calculateResolutionFactor, if_neg (by rw [zoomThreshold]; exact not_le.mpr h)]
    show baseResolutionFactor * min (zoom / zoomThreshold) maxResolutionFactor
        ⊓ maxResolutionFactor = min (zoom / 100) 2
    rw [zoomThreshold, baseResolutionFactor, maxResolutionFactor]
    rw [one_mul, min_assoc, min_self]

/-- Witness for C9 at zoom 50 (below threshold), zoom 150 (above threshold),
and a concrete display size. -/
theorem C9_resolution_witness :
    calculateResolutionFactor 50 = 1 ∧
    calculateResolutionFactor 150 = min (150 / 100) 2 ∧
    resizeDims 799 601 150 = (1198, 901) := by
  refine ⟨(C9_resolution 50 0 0).1 (by norm_num),
    (C9_resolution 150 0 0).2.1 (by norm_num), ?_⟩
  norm_num [resizeDims, calculateResolutionFactor, zoomThreshold,
    baseResolutionFactor, maxResolutionFactor]

/-- Claim C5 counterexample: with zoom 1 and canvas 800 x 600, panning by a
delta of the full canvas width moves the center by 4, not by the visible
complex width 8/3 claimed from rangeY = 2/zoom. -/
theorem C5_counterexample :
    (pan ⟨-1/2, 0, 1⟩ 800 600 800 0).x ≠
      (-1/2 : ℚ) - 800 * (2 / 1 * (800 / 600)) / 800 := by
  norm_num [pan]

/-- Claim C5 amended: pan converts the pixel delta with fractalHeight =
3/zoom, which is 3/2 times the visible height 2/zoom, and the matching
aspect-scaled width; centerX decreases and centerY increases accordingly. -/
theorem C5_amended (vp : Viewport) (w h dx dy : ℚ) :
    pan vp w h dx dy =
      ⟨vp.x - dx * (3 / 2 * (2 / vp.zoom) * (w / h)) / w,
       vp.y + dy * (3 / 2 * (2 / vp.zoom)) / h,
       vp.zoom⟩ := by
  simp only [pan, Viewport.mk.injEq]
  refine ⟨by ring, by ring, trivial⟩

/-- Claim C1: c = -3/2 never escapes within cap 5 (the orbit stays bounded),
so the evaluator must return exactly 5.  The standalone shader does; the
inline shaders of the WebGL renderer leave their loop variable at 4 < 5,
take the smoothing branch for this non-escaped point, and return 5 - nu,
which is not 5. -/
theorem C1_inline_shader_bug :
    result003 (-3/2, 0) 5 = 5 ∧ result004 (-3/2, 0) 5 ≠ 5 := by
  have hm : ∀ j < 5, ¬ escAt ((-3/2 : ℚ), (0 : ℚ)) j := by
    intro j hj
    interval_cases j <;> norm_num [escAt, orbit, step, normSq]
  constructor
  · rw [result003_noEsc (-3/2, 0) 5 hm]
    norm_num
  · rw [result004_noEsc (-3/2, 0) 5 hm (by norm_num) (by norm_num)]
    have hz : normSq (orbit ((-3/2 : ℚ), (0 : ℚ)) 5) = 5332358529 / 4294967296 := by
      norm_num [orbit, step, normSq]
    rw [hz]
    have hnu : nu (5332358529 / 4294967296) ≠ 0 := by
      apply nu_ne_zero_of_lt
      · push_cast
        norm_num
      · push_cast
        norm_num
    intro hc
    apply hnu
    push_cast at hc
    linarith

/-- Claim C2 counterexample: c = 3 escapes at loop index 0 with |z|*|z| = 9,
so the claimed smoothed value is 0 + 1 - nu(9); but the CPU pixel loop
returns the plain integer 1, and 1 is not 0 + 1 - nu(9). -/
theorem C2_counterexample :
    calculateMandelbrot (3, 0) 10 = 1 ∧ normSq (orbit (3, 0) 1) = 9 ∧
      ((1 : ℝ) ≠ (0 : ℝ) + 1 - nu 9) := by
  have h1 : calculateMandelbrot ((3 : ℚ), (0 : ℚ)) 10 = 1 := by
    apply calc_esc
    · norm_num [orbit, step, normSq]
    · intro j hj
      interval_cases j
      norm_num [orbit, normSq]
    · norm_num
  refine ⟨h1, by norm_num [orbit, step, normSq], ?_⟩
  have h9 : nu 9 ≠ 0 := nu_ne_zero_of_gt 9 (by norm_num)
  intro hc
  apply h9
  linarith

/-- Claim C2 amended: when the first escaping loop index is n < m (with m
within the shader loop bound), both GPU shader variants return the smoothed
value n + 1 - nu computed from z at the escape step, while the CPU pixel
loop returns the integer iteration count n + 1 with no smoothing. -/
theorem C2_amended (c : ℚ × ℚ) (m n : ℕ) (hnm : n < m) (hm : m ≤ 1000)
    (hn : escAt c n) (hfirst : ∀ j < n, ¬ escAt c j) :
    result003 c m = (n : ℝ) + 1 - nu (normSq (orbit c (n + 1))) ∧
    result004 c m = (n : ℝ) + 1 - nu (normSq (orbit c (n + 1))) ∧
    calculateMandelbrot c m = n + 1 := by
  refine ⟨result003_esc c m hn hfirst hnm, result004_esc c m hn hfirst hnm hm, ?_⟩
  apply calc_esc c m (k := n + 1) hn
  · intro j hj
    cases j with
    | zero => norm_num [orbit, normSq]
    | succ i => exact hfirst i (by omega)
  · omega

/-- Witness for C2 amended at c = 3, cap 10, first escape index 0. -/
theorem C2_amended_witness :
    result003 (3, 0) 10 = (0 : ℝ) + 1 - nu (normSq (orbit (3, 0) 1)) ∧
    result004 (3, 0) 10 = (0 : ℝ) + 1 - nu (normSq (orbit (3, 0) 1)) ∧
    calculateMandelbrot (3, 0) 10 = 0 + 1 := by
  have h := C2_amended (3, 0) 10 0 (by norm_num) (by norm_num)
    (by norm_num [escAt, orbit, step, normSq])
    (fun j hj => absurd hj (Nat.not_lt_zero j))
  simpa using h

/-- Claim C3 counterexample: with viewport (-1/2, 0, zoom 1), canvas
800 x 600 and the pointer at the top-left pixel, the ndc-based wheel handler
changes the complex coordinate rendered at that pixel (from -11/6 to -5/3 in
the real part): the zoom-to-cursor identity fails off the canvas center. -/
theorem C3_counterexample :
    (shaderComplex (wheelNdc ⟨-1/2, 0, 1⟩ 800 600 0 0 true) 800 600 0 600).1 ≠
      (shaderComplex ⟨-1/2, 0, 1⟩ 800 600 0 600).1 := by
  norm_num [shaderComplex, wheelNdc]

/-- Claim C3 amended: the relative-dimension wheel handler preserves the
complex coordinate under the pointer exactly, for every viewport, canvas
size and pointer position, and multiplies zoom by 0.8 or 1.2; the ndc-based
handler of src/index.ts preserves the viewport center (hence the coordinate
under the pointer) only at the canvas midpoint. -/
theorem C3_amended (vp : Viewport) (w h px py : ℚ) (down : Bool) :
    screenToComplexSpec (wheelRelative vp w h px py down) w h px py
        = screenToComplexSpec vp w h px py ∧
    (wheelRelative vp w h px py down).zoom
        = vp.zoom * (if down then 4 / 5 else 6 / 5) ∧
    (w ≠ 0 → h ≠ 0 →
      wheelNdc vp w h (w / 2) (h / 2) down
        = ⟨vp.x, vp.y, vp.zoom * (if down then 4 / 5 else 6 / 5)⟩) := by
  refine ⟨?_, rfl, fun hw hh => ?_⟩
  · simp only [wheelRelative, screenToComplexSpec, Prod.mk.injEq]
    constructor <;> ring
  · have hx : w / 2 / w * 2 - 1 = (0 : ℚ) := by
      field_simp
      ring
    have hy : h / 2 / h * (-2) + 1 = (0 : ℚ) := by
      field_simp
      ring
    simp only [wheelNdc, hx, hy, zero_mul, add_zero, sub_zero]

/-- Witness for C3 amended at viewport (-1/2, 0, 1), canvas 800 x 600,
pointer (40, 30), zoom-out wheel direction. -/
theorem C3_amended_witness :
    screenToComplexSpec (wheelRelative ⟨-1/2, 0, 1⟩ 800 600 40 30 true) 800 600 40 30
        = screenToComplexSpec ⟨-1/2, 0, 1⟩ 800 600 40 30 ∧
    wheelNdc ⟨-1/2, 0, 1⟩ 800 600 (800 / 2) (600 / 2) true
        = ⟨-1/2, 0, 1 * (if true then (4 : ℚ) / 5 else 6 / 5)⟩ :=
  ⟨(C3_amended ⟨-1/2, 0, 1⟩ 800 600 40 30 true).1,
   (C3_amended ⟨-1/2, 0, 1⟩ 800 600 40 30 true).2.2 (by norm_num) (by norm_num)⟩

/-- Claim C4 counterexample: a 100 x 100 selection centered at pixel
(150, 150) passes the dead zone, but the resulting center has imaginary part
-1/2, not the value 1/2 given by the Coordinate Mapper (which inverts the
screen y axis) at the rectangle midpoint. -/
theorem C4_counterexample :
    (10 < |(200 : ℚ) - 100| ∧ 10 < |(200 : ℚ) - 100|) ∧
    (mouseUpSelect ⟨-1/2, 0, 1⟩ 800 600 100 100 200 200).y ≠
      (screenToComplexSpec ⟨-1/2, 0, 1⟩ 800 600 ((100 + 200) / 2)
        ((100 + 200) / 2)).2 := by
  constructor
  · constructor <;> norm_num
  · norm_num [mouseUpSelect, zoomToSelection, screenToComplexSpec]

/-- Claim C4 amended: below or at the 10 pixel dead zone in either direction
the viewport is unchanged; otherwise zoom is multiplied by
min(canvasW/selW, canvasH/selH), the new center has the real part of the
Coordinate Mapper at the rectangle midpoint, and an imaginary part computed
without the screen-y inversion (mirrored about centerY relative to the
mapper). -/
theorem C4_amended (vp : Viewport) (w h sx sy ex ey : ℚ) :
    (|ex - sx| ≤ 10 ∨ |ey - sy| ≤ 10 → mouseUpSelect vp w h sx sy ex ey = vp) ∧
    (10 < |ex - sx| → 10 < |ey - sy| →
      (mouseUpSelect vp w h sx sy ex ey).zoom
          = vp.zoom * min (w / |ex - sx|) (h / |ey - sy|) ∧
      (mouseUpSelect vp w h sx sy ex ey).x
          = (screenToComplexSpec vp w h ((sx + ex) / 2) ((sy + ey) / 2)).1 ∧
      (mouseUpSelect vp w h sx sy ex ey).y
          = vp.y + ((sy + ey) / 2 / h - 1 / 2) * (2 / vp.zoom)) := by
  constructor
  · intro hsmall
    have hno : ¬ (10 < |ex - sx| ∧ 10 < |ey - sy|) := by
      rcases hsmall with hs | hs
      · exact fun hc => absurd hc.1 (not_lt.mpr hs)
      · exact fun hc => absurd hc.2 (not_lt.mpr hs)
    simp [mouseUpSelect, hno]
  · intro h1 h2
    simp only [mouseUpSelect, if_pos (And.intro h1 h2), zoomToSelection,
      screenToComplexSpec]
    refine ⟨trivial, by ring, by ring⟩

/-- Witness for C4 amended: a 5 x 4 selection is discarded; a 100 x 100
selection multiplies zoom by min(800/100, 600/100). -/
theorem C4_amended_witness :
    mouseUpSelect ⟨-1/2, 0, 1⟩ 800 600 100 100 105 104 = ⟨-1/2, 0, 1⟩ ∧
    (mouseUpSelect ⟨-1/2, 0, 1⟩ 800 600 100 100 200 200).zoom
        = 1 * min (800 / |(200 : ℚ) - 100|) (600 / |(200 : ℚ) - 100|) :=
  ⟨(C4_amended ⟨-1/2, 0, 1⟩ 800 600 100 100 105 104).1 (Or.inl (by norm_num)),
   ((C4_amended ⟨-1/2, 0, 1⟩ 800 600 100 100 200 200).2 (by norm_num)
     (by norm_num)).1⟩

/-- Claim C6 counterexample: the tooltip conversion maps the top-left pixel
of viewport (-1/2, 0, zoom 1) on an 800 x 600 canvas to imaginary part -1,
while the y-inverting Coordinate Mapper gives +1: the tooltip path does not
invert the screen y axis. -/
theorem C6_counterexample :
    (screenToComplex ⟨-1/2, 0, 1⟩ 800 600 0 0).2 ≠
      (screenToComplexSpec ⟨-1/2, 0, 1⟩ 800 600 0 0).2 := by
  norm_num [screenToComplex, screenToComplexSpec]

/-- Claim C6 amended: the shader mapping inverts the screen y axis (through
the upward gl_FragCoord axis: screen pixel (px, py) is fragment
(px, h - py)), matching the Coordinate Mapper; the tooltip conversion and
the selection-zoom center instead use the non-inverted form
centerY + (py/h - 1/2) * rangeY. -/
theorem C6_amended (vp : Viewport) (w h px py sx sy ex ey : ℚ) :
    (h ≠ 0 → shaderComplex vp w h px (h - py) = screenToComplexSpec vp w h px py) ∧
    (screenToComplex vp w h px py).2 = vp.y + (py / h - 1 / 2) * (2 / vp.zoom) ∧
    (zoomToSelection vp w h sx sy ex ey).y
        = vp.y + ((sy + ey) / 2 / h - 1 / 2) * (2 / vp.zoom) := by
  refine ⟨fun hh => ?_, ?_, ?_⟩
  · simp only [shaderComplex, screenToComplexSpec, Prod.mk.injEq]
    refine ⟨trivial, ?_⟩
    have hdiv : (h - py) / h = 1 - py / h := by
      field_simp
    rw [hdiv]
    ring
  · simp only [screenToComplex]
    ring
  · simp only [zoomToSelection]
    ring

/-- Witness for C6 amended at viewport (-1/2, 0, 1), canvas 800 x 600,
pixel (40, 30). -/
theorem C6_amended_witness :
    shaderComplex ⟨-1/2, 0, 1⟩ 800 600 40 (600 - 30)
        = screenToComplexSpec ⟨-1/2, 0, 1⟩ 800 600 40 30 ∧
    (screenToComplex ⟨-1/2, 0, 1⟩ 800 600 40 30).2
        = 0 + (30 / 600 - 1 / 2) * (2 / 1) :=
  ⟨(C6_amended ⟨-1/2, 0, 1⟩ 800 600 40 30 0 0 0 0).1 (by norm_num),
   (C6_amended ⟨-1/2, 0, 1⟩ 800 600 40 30 0 0 0 0).2.1⟩

/-- Claim C7: once the evaluator has detected escape under cap m1, raising
the cap to any m2 >= m1 does not change the returned value: the standalone
shader returns the same smoothed value and the CPU loop the same integer
count. -/
theorem C7_monotone (c : ℚ × ℚ) (m1 m2 : ℕ) (h12 : m1 ≤ m2) :
    (escaped003 c m1 → result003 c m1 = result003 c m2) ∧
    (escapedCpu c m1 → calculateMandelbrot c m1 = calculateMandelbrot c m2) := by
  constructor
  · intro h
    obtain ⟨n, hn, hfirst, hnm⟩ := escaped003_first h
    rw [result003_esc c m1 hn hfirst hnm,
      result003_esc c m2 hn hfirst (lt_of_lt_of_le hnm h12)]
  · intro h
    obtain ⟨k, hk, hfirst, hkm⟩ := escapedCpu_first h
    rw [calc_esc c m1 hk hfirst hkm, calc_esc c m2 hk hfirst (le_trans hkm h12)]

/-- The standalone shader detects escape for c = 3 already under cap 1. -/
lemma escaped003_three : escaped003 ((3 : ℚ), (0 : ℚ)) 1 := by
  unfold escaped003
  rw [run003_esc (3, 0) 1 (n := 0) (by norm_num [escAt, orbit, step, normSq])
    (fun j hj => absurd hj (Nat.not_lt_zero j)) (by norm_num)]
  norm_num [orbit, step, normSq]

/-- The CPU loop detects escape for c = 3 already under cap 1. -/
lemma escapedCpu_three : escapedCpu ((3 : ℚ), (0 : ℚ)) 1 := by
  unfold escapedCpu
  rw [show ((0 : ℚ), (0 : ℚ)) = orbit (3, 0) 0 from rfl,
    cpuGo_esc (3, 0) 1 (k := 1) (by norm_num [orbit, step, normSq]) (by norm_num)
      2 0 (by norm_num)
      (fun j hj1 hj2 => by interval_cases j; norm_num [orbit, normSq])
      (by norm_num)]
  norm_num [orbit, step, normSq]

/-- Witness for C7 at c = 3, caps 1 and 7. -/
theorem C7_monotone_witness :
    result003 (3, 0) 1 = result003 (3, 0) 7 ∧
      calculateMandelbrot (3, 0) 1 = calculateMandelbrot (3, 0) 7 :=
  ⟨(C7_monotone (3, 0) 1 7 (by norm_num)).1 escaped003_three,
   (C7_monotone (3, 0) 1 7 (by norm_num)).2 escapedCpu_three⟩

end Mandel
